import Mathlib

set_option maxHeartbeats 1000000
set_option maxRecDepth 10000

/-!
Verification of the generator scripts of `simd_set_operations`:
`scripts/kernel.py` (dispatch-table generator) and `scripts/codegen/mono.py`
(variant enumerator), embedded shallowly as Lean functions.
-/

namespace SimdSetOps

/-- Which syntactic operand (`left` or `right`) plays a role.  Mirrors the
strings `"left"`/`"right"` used by `kernel.py`. -/
inductive Side where
  | left : Side
  | right : Side
deriving DecidableEq

/-- `get_ctrl(left, right) = (left << SHIFT) | right` from `kernel.py` line 34-35. -/
def get_ctrl (SHIFT left right : Nat) : Nat :=
  (left <<< SHIFT) ||| right

/-- One emitted dispatch arm: the control id, the kernel key
`(kernel_small, kernel_large)` appearing in the emitted kernel name
`{simd}_{kernel_small}x{kernel_large}`, and the role assignment
(which operand is passed as the small / large argument). -/
structure Entry where
  ctrl : Nat
  kernel_small : Nat
  kernel_large : Nat
  small : Side
  large : Side
deriving DecidableEq

/-- The body of the main dispatch loop of `kernel.py` (lines 48-71) for one
`(left, right)` pair: role assignment by `left <= right`, control id via
`get_ctrl`, and bucketing `kernel_large = WIDTH*2` when the large value
exceeds `WIDTH`, else `WIDTH`. -/
def mkEntry (WIDTH SHIFT left right : Nat) : Entry :=
  { ctrl := get_ctrl SHIFT left right
    kernel_small := if left ≤ right then left else right
    kernel_large :=
      if WIDTH < (if left ≤ right then right else left) then WIDTH * 2 else WIDTH
    small := if left ≤ right then Side.left else Side.right
    large := if left ≤ right then Side.right else Side.left }

/-- The full emitted dispatch table: `for left in range(1, WIDTH*2)` and
`for right in range(1, WIDTH*2)` (both `1 .. WIDTH*2-1`), one entry per pair,
in emission order. -/
def dispatchTable (WIDTH SHIFT : Nat) : List Entry :=
  (List.range' 1 (WIDTH * 2 - 1)).flatMap fun left =>
    (List.range' 1 (WIDTH * 2 - 1)).map fun right =>
      mkEntry WIDTH SHIFT left right

/-- The kernel catalog built at `kernel.py` lines 29-32:
`(ctrl, WIDTH)` for `ctrl in range(1, WIDTH+1)` and `(ctrl, WIDTH*2)` for
`ctrl in range(1, WIDTH*2)`. -/
def kernels (WIDTH : Nat) : List (Nat × Nat) :=
  ((List.range' 1 WIDTH).map fun ctrl => (ctrl, WIDTH)) ++
    ((List.range' 1 (WIDTH * 2 - 1)).map fun ctrl => (ctrl, WIDTH * 2))

/-- The three `(WIDTH, SHIFT)` configurations accepted by `kernel.py`:
sse = (4, 3), avx2 = (8, 4), avx512 = (16, 5). -/
def validConfig (WIDTH SHIFT : Nat) : Prop :=
  (WIDTH = 4 ∧ SHIFT = 3) ∨ (WIDTH = 8 ∧ SHIFT = 4) ∨ (WIDTH = 16 ∧ SHIFT = 5)

theorem validConfig_two_pow {WIDTH SHIFT : Nat} (h : validConfig WIDTH SHIFT) :
    WIDTH * 2 = 2 ^ SHIFT := by
  rcases h with ⟨rfl, rfl⟩ | ⟨rfl, rfl⟩ | ⟨rfl, rfl⟩ <;> rfl

theorem mkEntry_ctrl (WIDTH SHIFT left right : Nat) :
    (mkEntry WIDTH SHIFT left right).ctrl = get_ctrl SHIFT left right := rfl

/-- On arguments whose low field fits in `SHIFT` bits, `get_ctrl` is the
arithmetic encoding `left * 2^SHIFT + right`. -/
theorem get_ctrl_eq {SHIFT right : Nat} (left : Nat) (h : right < 2 ^ SHIFT) :
    get_ctrl SHIFT left right = left * 2 ^ SHIFT + right := by
  unfold get_ctrl
  rw [Nat.shiftLeft_eq, Nat.mul_comm left]
  exact (Nat.mul_add_lt_is_or h left).symm

theorem get_ctrl_inj {SHIFT l1 r1 l2 r2 : Nat}
    (hr1 : r1 < 2 ^ SHIFT) (hr2 : r2 < 2 ^ SHIFT)
    (h : get_ctrl SHIFT l1 r1 = get_ctrl SHIFT l2 r2) : l1 = l2 ∧ r1 = r2 := by
  rw [get_ctrl_eq l1 hr1, get_ctrl_eq l2 hr2] at h
  have hP : 0 < 2 ^ SHIFT := Nat.two_pow_pos SHIFT
  have d1 : (l1 * 2 ^ SHIFT + r1) / 2 ^ SHIFT = l1 := by
    rw [Nat.mul_comm, Nat.mul_add_div hP, Nat.div_eq_of_lt hr1, Nat.add_zero]
  have d2 : (l2 * 2 ^ SHIFT + r2) / 2 ^ SHIFT = l2 := by
    rw [Nat.mul_comm, Nat.mul_add_div hP, Nat.div_eq_of_lt hr2, Nat.add_zero]
  have m1 : (l1 * 2 ^ SHIFT + r1) % 2 ^ SHIFT = r1 := by
    rw [Nat.mul_comm, Nat.mul_add_mod, Nat.mod_eq_of_lt hr1]
  have m2 : (l2 * 2 ^ SHIFT + r2) % 2 ^ SHIFT = r2 := by
    rw [Nat.mul_comm, Nat.mul_add_mod, Nat.mod_eq_of_lt hr2]
  constructor
  · rw [← d1, ← d2, h]
  · rw [← m1, ← m2, h]

theorem mem_range1 {a s n : Nat} (h : a ∈ List.range' s n) : s ≤ a ∧ a < s + n := by
  obtain ⟨i, hi, rfl⟩ := List.mem_range'.1 h
  omega

theorem mem_range1_of {a s n : Nat} (h1 : s ≤ a) (h2 : a < s + n) :
    a ∈ List.range' s n :=
  List.mem_range'.2 ⟨a - s, by omega, by omega⟩

theorem pairwise_lt_range1 (s n : Nat) : List.Pairwise (· < ·) (List.range' s n) := by
  induction n generalizing s with
  | zero => simp
  | succ n ih =>
    rw [List.range'_succ]
    exact List.Pairwise.cons
      (fun m hm => by obtain ⟨_, hlt⟩ := mem_range1 hm; omega) (ih (s + 1))

/-- The control ids of the emitted table, in emission order, are strictly
increasing: inner (`right`) iteration increments the low field, outer
(`left`) iteration the high field. -/
theorem dispatch_ctrl_pairwise {WIDTH SHIFT : Nat} (hpow : WIDTH * 2 = 2 ^ SHIFT) :
    ((dispatchTable WIDTH SHIFT).map Entry.ctrl).Pairwise (· < ·) := by
  unfold dispatchTable
  rw [List.map_flatMap]
  rw [List.pairwise_flatMap]
  constructor
  · intro l _
    rw [List.map_map, List.pairwise_map]
    refine (pairwise_lt_range1 1 (WIDTH * 2 - 1)).imp_of_mem ?_
    intro a b ha hb hab
    obtain ⟨_, ha2⟩ := mem_range1 ha
    obtain ⟨_, hb2⟩ := mem_range1 hb
    show (mkEntry WIDTH SHIFT l a).ctrl < (mkEntry WIDTH SHIFT l b).ctrl
    rw [mkEntry_ctrl, mkEntry_ctrl, get_ctrl_eq l (by omega), get_ctrl_eq l (by omega)]
    omega
  · refine (pairwise_lt_range1 1 (WIDTH * 2 - 1)).imp_of_mem ?_
    intro l1 l2 hl1 hl2 hlt x hx y hy
    obtain ⟨_, hl1b⟩ := mem_range1 hl1
    obtain ⟨_, hl2b⟩ := mem_range1 hl2
    rw [List.map_map, List.mem_map] at hx hy
    obtain ⟨r1, hr1, rfl⟩ := hx
    obtain ⟨r2, hr2, rfl⟩ := hy
    obtain ⟨_, hr1b⟩ := mem_range1 hr1
    obtain ⟨_, hr2b⟩ := mem_range1 hr2
    show (mkEntry WIDTH SHIFT l1 r1).ctrl < (mkEntry WIDTH SHIFT l2 r2).ctrl
    rw [mkEntry_ctrl, mkEntry_ctrl, get_ctrl_eq l1 (by omega), get_ctrl_eq l2 (by omega)]
    calc l1 * 2 ^ SHIFT + r1 < l1 * 2 ^ SHIFT + 2 ^ SHIFT := by omega
      _ = (l1 + 1) * 2 ^ SHIFT := by ring
      _ ≤ l2 * 2 ^ SHIFT := Nat.mul_le_mul_right _ (by omega)
      _ ≤ l2 * 2 ^ SHIFT + r2 := Nat.le_add_right _ _

theorem dispatch_ctrl_nodup {WIDTH SHIFT : Nat} (hpow : WIDTH * 2 = 2 ^ SHIFT) :
    ((dispatchTable WIDTH SHIFT).map Entry.ctrl).Nodup :=
  (dispatch_ctrl_pairwise hpow).imp Nat.ne_of_lt

theorem mkEntry_mem_dispatch {WIDTH SHIFT left right : Nat}
    (hl : 1 ≤ left ∧ left ≤ WIDTH * 2 - 1) (hr : 1 ≤ right ∧ right ≤ WIDTH * 2 - 1) :
    mkEntry WIDTH SHIFT left right ∈ dispatchTable WIDTH SHIFT := by
  unfold dispatchTable
  rw [List.mem_flatMap]
  exact ⟨left, mem_range1_of (by omega) (by omega),
    List.mem_map.2 ⟨right, mem_range1_of (by omega) (by omega), rfl⟩⟩

theorem ctrl_mem_dispatch {WIDTH SHIFT left right : Nat}
    (hl : 1 ≤ left ∧ left ≤ WIDTH * 2 - 1) (hr : 1 ≤ right ∧ right ≤ WIDTH * 2 - 1) :
    get_ctrl SHIFT left right ∈ (dispatchTable WIDTH SHIFT).map Entry.ctrl :=
  List.mem_map.2 ⟨mkEntry WIDTH SHIFT left right, mkEntry_mem_dispatch hl hr, rfl⟩

/-- The covered control ids are exactly the arithmetic encodings of the
domain pairs. -/
theorem mem_ctrl_iff {WIDTH SHIFT : Nat} (hpow : WIDTH * 2 = 2 ^ SHIFT) (id : Nat) :
    id ∈ (dispatchTable WIDTH SHIFT).map Entry.ctrl ↔
      ∃ l r, (1 ≤ l ∧ l ≤ WIDTH * 2 - 1) ∧ (1 ≤ r ∧ r ≤ WIDTH * 2 - 1) ∧
        id = l * (WIDTH * 2) + r := by
  constructor
  · intro hmem
    obtain ⟨e, he, rfl⟩ := List.mem_map.1 hmem
    unfold dispatchTable at he
    obtain ⟨l, hlmem, he2⟩ := List.mem_flatMap.1 he
    obtain ⟨r, hrmem, rfl⟩ := List.mem_map.1 he2
    obtain ⟨hl1, hl2⟩ := mem_range1 hlmem
    obtain ⟨hr1, hr2⟩ := mem_range1 hrmem
    refine ⟨l, r, ⟨by omega, by omega⟩, ⟨by omega, by omega⟩, ?_⟩
    rw [hpow, mkEntry_ctrl, get_ctrl_eq l (by omega)]
  · rintro ⟨l, r, hl, hr, rfl⟩
    have h := @ctrl_mem_dispatch WIDTH SHIFT l r hl hr
    rwa [get_ctrl_eq l (by omega), ← hpow] at h

/-!
Embedding of `scripts/codegen/mono.py`: the variant enumerator.
Instruction-set features are modelled as the chain
`nofeat < ssse3 < avx2 < avx512f` (each later feature subsumes the earlier
ones on real hardware); `None` in the script is `nofeat`.
-/

/-- A required instruction-set feature (or none). -/
inductive Feat where
  | nofeat : Feat
  | ssse3 : Feat
  | avx2 : Feat
  | avx512f : Feat
deriving DecidableEq

def featRank : Feat → Nat
  | .nofeat => 0
  | .ssse3 => 1
  | .avx2 => 2
  | .avx512f => 3

/-- The strictest of two feature requirements, in the subsumption chain. -/
def featMax (a b : Feat) : Feat :=
  if featRank a ≤ featRank b then b else a

def SHUF_ALGOS : List String := ["shuffling", "broadcast"]

def SIMD_WIDTHS : List (String × Feat) :=
  [("sse", .ssse3), ("avx2", .avx2), ("avx512", .avx512f)]

def SCALAR_ALGOS : List String := ["naive_merge", "branchless_merge"]

def SSE_ALGOS : List String := ["bmiss", "bmiss_sttni", "qfilter"]

def AVX512_ALGOS : List String := ["vp2intersect_emulation"]

def VISITORS : List (String × String) :=
  [("count", "Counter"), ("lut", "UnsafeLookupWriter<i32>"),
   ("comp", "UnsafeCompressWriter<i32>")]

/-- One emitted monomorphisation: the generated function name, the tags of
the loop iteration producing it (width label, branch style, visitor name),
the algorithm family's own feature requirement, and the `simd_req` feature
that guards the declaration, exactly as computed in `mono.py`. -/
structure MV where
  name : String
  width : String
  br : Bool
  vname : String
  algoFeat : Feat
  simd_req : Feat
deriving DecidableEq

/-- The feature floor a visitor imposes: every `simd_req` computation in
`mono.py` uses `"avx512f" if vname == "comp" else ...` — the compress-write
visitor requires avx512f, the others impose nothing. -/
def visitorFloor (vname : String) : Feat :=
  if vname = "comp" then .avx512f else .nofeat

/-- `mono.py` lines 41-44: scalar algorithms, one variant per visitor. -/
def scalarVariants : List MV :=
  SCALAR_ALGOS.flatMap fun algo =>
    VISITORS.map fun v =>
      { name := algo ++ "_" ++ v.1
        width := ""
        br := false
        vname := v.1
        algoFeat := .nofeat
        simd_req := if v.1 = "comp" then .avx512f else .nofeat }

/-- `mono.py` lines 46-52, restricted to one algorithm family: for each SIMD
width, for each visitor, the plain variant then the `_br_` variant. -/
def shufFamily (algo : String) : List MV :=
  SIMD_WIDTHS.flatMap fun wf =>
    VISITORS.flatMap fun v =>
      let simd_req := if v.1 = "comp" then Feat.avx512f else wf.2
      [{ name := algo ++ "_" ++ wf.1 ++ "_" ++ v.1
         width := wf.1, br := false, vname := v.1
         algoFeat := wf.2, simd_req := simd_req },
       { name := algo ++ "_" ++ wf.1 ++ "_br_" ++ v.1
         width := wf.1, br := true, vname := v.1
         algoFeat := wf.2, simd_req := simd_req }]

/-- `mono.py` lines 46-52: all shuffling-family variants. -/
def shufVariants : List MV :=
  SHUF_ALGOS.flatMap shufFamily

/-- `mono.py` lines 54-58: SSE algorithms (own requirement ssse3). -/
def sseVariants : List MV :=
  SSE_ALGOS.flatMap fun algo =>
    VISITORS.flatMap fun v =>
      let simd_req := if v.1 = "comp" then Feat.avx512f else Feat.ssse3
      [{ name := algo ++ "_" ++ v.1
         width := "", br := false, vname := v.1
         algoFeat := .ssse3, simd_req := simd_req },
       { name := algo ++ "_br_" ++ v.1
         width := "", br := true, vname := v.1
         algoFeat := .ssse3, simd_req := simd_req }]

/-- `mono.py` lines 60-63: AVX-512 algorithms (guard always avx512f). -/
def avx512Variants : List MV :=
  AVX512_ALGOS.flatMap fun algo =>
    VISITORS.flatMap fun v =>
      [{ name := algo ++ "_" ++ v.1
         width := "", br := false, vname := v.1
         algoFeat := .avx512f, simd_req := .avx512f },
       { name := algo ++ "_br_" ++ v.1
         width := "", br := true, vname := v.1
         algoFeat := .avx512f, simd_req := .avx512f }]

/-- `mono.py` line 65: the lone C wrapper `qfilter_c` (guard ssse3, no
visitor). -/
def cVariants : List MV :=
  [{ name := "qfilter_c", width := "", br := false, vname := ""
     algoFeat := .ssse3, simd_req := .ssse3 }]

/-- Every variant emitted by `mono.py`, in emission order. -/
def monoVariants : List MV :=
  scalarVariants ++ shufVariants ++ sseVariants ++ avx512Variants ++ cVariants

/-- The per-family variant ordering claimed by the spec (§8): width-major,
then branch style, then visitor kind — written from the spec's words, to be
compared with the order the source actually emits. -/
def specClaimedFamilyOrder : List (String × Bool × String) :=
  SIMD_WIDTHS.flatMap fun wf =>
    [false, true].flatMap fun br =>
      VISITORS.map fun v => (wf.1, br, v.1)

/-- The loop tags of one emitted variant. -/
def mvTags (v : MV) : String × Bool × String :=
  (v.width, v.br, v.vname)

/-!
The claims.
-/

/-- Claim C1: for every Width ∈ {4, 8, 16} and every pair (left, right) in
[1, 2·Width−1]², exactly one emitted dispatch entry carries the control id
`get_ctrl SHIFT left right`. -/
theorem dispatch_covers_each_pair_exactly_once
    (WIDTH SHIFT left right : Nat) (hcfg : validConfig WIDTH SHIFT)
    (hl : 1 ≤ left ∧ left ≤ WIDTH * 2 - 1)
    (hr : 1 ≤ right ∧ right ≤ WIDTH * 2 - 1) :
    (dispatchTable WIDTH SHIFT).countP
      (fun e => e.ctrl == get_ctrl SHIFT left right) = 1 := by
  have hpow := validConfig_two_pow hcfg
  have h1 : ((dispatchTable WIDTH SHIFT).map Entry.ctrl).count
      (get_ctrl SHIFT left right) = 1 :=
    List.count_eq_one_of_mem (dispatch_ctrl_nodup hpow) (ctrl_mem_dispatch hl hr)
  rw [List.count_eq_countP, List.countP_map] at h1
  exact h1

theorem dispatch_covers_each_pair_exactly_once_witness :
    (dispatchTable 4 3).countP (fun e => e.ctrl == get_ctrl 3 2 5) = 1 :=
  dispatch_covers_each_pair_exactly_once 4 3 2 5 (Or.inl ⟨rfl, rfl⟩)
    (by omega) (by omega)

/-- Claim C2: for every Width ∈ {4, 8, 16} with shift 3, 4, 5, the encoding
`(left << shift) | right` is injective on [1, 2·Width−1]²: distinct pairs
give distinct control ids. -/
theorem encode_injective_on_domain
    (WIDTH SHIFT l1 r1 l2 r2 : Nat) (hcfg : validConfig WIDTH SHIFT)
    (h1 : 1 ≤ l1 ∧ l1 ≤ WIDTH * 2 - 1) (h2 : 1 ≤ r1 ∧ r1 ≤ WIDTH * 2 - 1)
    (h3 : 1 ≤ l2 ∧ l2 ≤ WIDTH * 2 - 1) (h4 : 1 ≤ r2 ∧ r2 ≤ WIDTH * 2 - 1)
    (hne : (l1, r1) ≠ (l2, r2)) :
    get_ctrl SHIFT l1 r1 ≠ get_ctrl SHIFT l2 r2 := by
  have hpow := validConfig_two_pow hcfg
  intro h
  obtain ⟨hl, hr⟩ := get_ctrl_inj (by omega) (by omega) h
  exact hne (by rw [hl, hr])

theorem encode_injective_on_domain_witness :
    get_ctrl 3 1 2 ≠ get_ctrl 3 2 1 :=
  encode_injective_on_domain 4 3 1 2 2 1 (Or.inl ⟨rfl, rfl⟩)
    (by omega) (by omega) (by omega) (by omega) (by decide)

/-- Claim C3 (counterexample): at Width 4 (shift 3), the id 16 lies inside
the interval [encode(1,1), encode(7,7)] = [9, 63] but no emitted dispatch
entry covers it — the union of covered control ids is not the contiguous
interval. -/
theorem coverage_gap_counterexample :
    (get_ctrl 3 1 1 ≤ 16 ∧ 16 ≤ get_ctrl 3 7 7) ∧
      16 ∉ (dispatchTable 4 3).map Entry.ctrl := by decide

/-- Claim C3 (amended): the union of the covered control ids equals the set
of ids of the interval [encode(1,1), encode(2·Width−1, 2·Width−1)] whose low
field is nonzero — the interval minus the multiples of 2·Width (one gap per
high-field increment). -/
theorem coverage_characterization (WIDTH SHIFT id : Nat)
    (hcfg : validConfig WIDTH SHIFT) :
    id ∈ (dispatchTable WIDTH SHIFT).map Entry.ctrl ↔
      get_ctrl SHIFT 1 1 ≤ id ∧
        id ≤ get_ctrl SHIFT (WIDTH * 2 - 1) (WIDTH * 2 - 1) ∧
        id % (WIDTH * 2) ≠ 0 := by
  have hpow := validConfig_two_pow hcfg
  have hW : 4 ≤ WIDTH := by
    rcases hcfg with ⟨rfl, _⟩ | ⟨rfl, _⟩ | ⟨rfl, _⟩ <;> omega
  rw [mem_ctrl_iff hpow, get_ctrl_eq 1 (by omega), get_ctrl_eq _ (by omega),
    ← hpow]
  constructor
  · rintro ⟨l, r, ⟨hl1, hl2⟩, ⟨hr1, hr2⟩, rfl⟩
    rcases hcfg with ⟨rfl, rfl⟩ | ⟨rfl, rfl⟩ | ⟨rfl, rfl⟩ <;> omega
  · rintro ⟨hlb, hub, hmod⟩
    refine ⟨id / (WIDTH * 2), id % (WIDTH * 2), ?_, ?_, ?_⟩ <;>
      rcases hcfg with ⟨rfl, rfl⟩ | ⟨rfl, rfl⟩ | ⟨rfl, rfl⟩ <;> omega

theorem coverage_characterization_witness :
    10 ∈ (dispatchTable 4 3).map Entry.ctrl :=
  (coverage_characterization 4 3 10 (Or.inl ⟨rfl, rfl⟩)).mpr (by decide)

/-- Claim C4 (counterexample): the range-compression step is commented out
in the source; at Width 4 the first two emitted entries are adjacent
singleton arms carrying the identical kernel (1x4) and identical roles, so
the output is not the minimal list of maximal contiguous ranges. -/
theorem dispatch_not_compressed_counterexample :
    (dispatchTable 4 3)[0]? = some ⟨9, 1, 4, Side.left, Side.right⟩ ∧
      (dispatchTable 4 3)[1]? = some ⟨10, 1, 4, Side.left, Side.right⟩ := by
  decide

/-- Claim C4 (amended): the builder emits one singleton entry per
(left, right) pair — (2·Width−1)² entries in all — in strictly ascending
control-id order, performing no compression of equal-kernel runs. -/
theorem dispatch_ascending_singletons (WIDTH SHIFT : Nat)
    (hcfg : validConfig WIDTH SHIFT) :
    ((dispatchTable WIDTH SHIFT).map Entry.ctrl).Pairwise (· < ·) ∧
      (dispatchTable WIDTH SHIFT).length = (WIDTH * 2 - 1) * (WIDTH * 2 - 1) := by
  refine ⟨dispatch_ctrl_pairwise (validConfig_two_pow hcfg), ?_⟩
  rcases hcfg with ⟨rfl, rfl⟩ | ⟨rfl, rfl⟩ | ⟨rfl, rfl⟩ <;> decide

theorem dispatch_ascending_singletons_witness :
    (dispatchTable 4 3).length = 7 * 7 :=
  (dispatch_ascending_singletons 4 3 (Or.inl ⟨rfl, rfl⟩)).2

/-- Claim C5: the selected KernelKey — (small run length, bucketed large
width) — is the same for (left, right) and (right, left); swapping the
inputs can change only the role assignment. -/
theorem kernel_key_symm (WIDTH SHIFT left right : Nat) :
    (mkEntry WIDTH SHIFT left right).kernel_small
        = (mkEntry WIDTH SHIFT right left).kernel_small ∧
      (mkEntry WIDTH SHIFT left right).kernel_large
        = (mkEntry WIDTH SHIFT right left).kernel_large := by
  rcases Nat.lt_trichotomy left right with h | h | h
  · have h1 : left ≤ right := Nat.le_of_lt h
    have h2 : ¬right ≤ left := by omega
    simp [mkEntry, h1, h2]
  · subst h
    exact ⟨rfl, rfl⟩
  · have h1 : ¬left ≤ right := by omega
    have h2 : right ≤ left := Nat.le_of_lt h
    simp [mkEntry, h1, h2]

/-- Claim C6: for every generated monomorphisation, the feature guarding its
declaration is the strictest of the algorithm's own feature requirement and
the visitor's feature floor — neither requirement is dropped. -/
theorem variant_feature_strictest :
    ∀ v ∈ monoVariants,
      v.simd_req = featMax v.algoFeat (visitorFloor v.vname) := by
  decide

theorem variant_feature_strictest_witness :
    ({ name := "qfilter_c", width := "", br := false, vname := "",
       algoFeat := .ssse3, simd_req := .ssse3 } : MV).simd_req
      = featMax Feat.ssse3 (visitorFloor "") :=
  variant_feature_strictest _ (by decide)

/-- Claim C7 (counterexample): the emitted per-family order is width-major,
then visitor kind, then branch style — not width, then branch style, then
visitor as claimed: the second shuffling variant is the branching
count-visitor one, where the claimed order puts the non-branching
lut-visitor one. -/
theorem family_order_counterexample :
    (shufFamily "shuffling").map mvTags ≠ specClaimedFamilyOrder ∧
      ((shufFamily "shuffling").map mvTags)[1]? = some ("sse", true, "count") ∧
      specClaimedFamilyOrder[1]? = some ("sse", false, "lut") := by
  decide

/-- Claim C7 (amended): each declared shuffling-family algorithm produces
exactly 18 variants (3 widths × 2 branch styles × 3 visitor kinds), emitted
width-major, then by visitor kind in declaration order, then by branch style
(plain before branching), with no randomness. -/
theorem family_enumeration (algo : String) (h : algo ∈ SHUF_ALGOS) :
    (shufFamily algo).length = 18 ∧
      (shufFamily algo).map mvTags =
        [("sse", false, "count"), ("sse", true, "count"),
         ("sse", false, "lut"), ("sse", true, "lut"),
         ("sse", false, "comp"), ("sse", true, "comp"),
         ("avx2", false, "count"), ("avx2", true, "count"),
         ("avx2", false, "lut"), ("avx2", true, "lut"),
         ("avx2", false, "comp"), ("avx2", true, "comp"),
         ("avx512", false, "count"), ("avx512", true, "count"),
         ("avx512", false, "lut"), ("avx512", true, "lut"),
         ("avx512", false, "comp"), ("avx512", true, "comp")] :=
  ⟨rfl, rfl⟩

theorem family_enumeration_witness :
    (shufFamily "shuffling").length = 18 :=
  (family_enumeration "shuffling" (by decide)).1

/-- Claim C8 (counterexample): at Width 4, left = right = 4 selects
KernelKey (4, 4): small = 4 is not in [1, LargeWidth − 1] = [1, 3], so a
catalog providing only the claim's stated range would miss this kernel. -/
theorem catalog_range_counterexample :
    (mkEntry 4 3 4 4).kernel_small = 4 ∧ (mkEntry 4 3 4 4).kernel_large = 4 ∧
      ¬((mkEntry 4 3 4 4).kernel_small
          ≤ (mkEntry 4 3 4 4).kernel_large - 1) := by
  decide

/-- Claim C8 (amended): for every (left, right) in the domain the selected
KernelKey (small, LargeWidth) satisfies LargeWidth ∈ {Width, 2·Width} and
1 ≤ small ≤ LargeWidth with small ≤ 2·Width − 1 (small = LargeWidth is
reached at left = right = Width), and the key is always present in the
code's catalog — (small, Width) for small ∈ [1, Width] and (small, 2·Width)
for small ∈ [1, 2·Width−1] — so the MissingKernel failure is unreachable
over the declared domain. -/
theorem lookup_key_in_catalog (WIDTH SHIFT left right : Nat)
    (hl : 1 ≤ left ∧ left ≤ WIDTH * 2 - 1)
    (hr : 1 ≤ right ∧ right ≤ WIDTH * 2 - 1) :
    ((mkEntry WIDTH SHIFT left right).kernel_large = WIDTH ∨
        (mkEntry WIDTH SHIFT left right).kernel_large = WIDTH * 2) ∧
      1 ≤ (mkEntry WIDTH SHIFT left right).kernel_small ∧
      (mkEntry WIDTH SHIFT left right).kernel_small
        ≤ (mkEntry WIDTH SHIFT left right).kernel_large ∧
      (mkEntry WIDTH SHIFT left right).kernel_small ≤ WIDTH * 2 - 1 ∧
      ((mkEntry WIDTH SHIFT left right).kernel_small,
        (mkEntry WIDTH SHIFT left right).kernel_large) ∈ kernels WIDTH := by
  have hmemW : ∀ s, 1 ≤ s → s ≤ WIDTH → (s, WIDTH) ∈ kernels WIDTH := fun s a b =>
    List.mem_append.2 (Or.inl
      (List.mem_map.2 ⟨s, mem_range1_of (by omega) (by omega), rfl⟩))
  have hmem2W : ∀ s, 1 ≤ s → s ≤ WIDTH * 2 - 1 →
      (s, WIDTH * 2) ∈ kernels WIDTH := fun s a b =>
    List.mem_append.2 (Or.inr
      (List.mem_map.2 ⟨s, mem_range1_of (by omega) (by omega), rfl⟩))
  by_cases hlr : left ≤ right
  · have hsmall : (mkEntry WIDTH SHIFT left right).kernel_small = left := by
      simp [mkEntry, hlr]
    by_cases hw : WIDTH < right
    · have hlarge : (mkEntry WIDTH SHIFT left right).kernel_large = WIDTH * 2 := by
        simp [mkEntry, hlr, hw]
      rw [hsmall, hlarge]
      exact ⟨Or.inr rfl, by omega, by omega, by omega,
        hmem2W left (by omega) (by omega)⟩
    · have hlarge : (mkEntry WIDTH SHIFT left right).kernel_large = WIDTH := by
        simp [mkEntry, hlr, hw]
      rw [hsmall, hlarge]
      exact ⟨Or.inl rfl, by omega, by omega, by omega,
        hmemW left (by omega) (by omega)⟩
  · have hsmall : (mkEntry WIDTH SHIFT left right).kernel_small = right := by
      simp [mkEntry, hlr]
    by_cases hw : WIDTH < left
    · have hlarge : (mkEntry WIDTH SHIFT left right).kernel_large = WIDTH * 2 := by
        simp [mkEntry, hlr, hw]
      rw [hsmall, hlarge]
      exact ⟨Or.inr rfl, by omega, by omega, by omega,
        hmem2W right (by omega) (by omega)⟩
    · have hlarge : (mkEntry WIDTH SHIFT left right).kernel_large = WIDTH := by
        simp [mkEntry, hlr, hw]
      rw [hsmall, hlarge]
      exact ⟨Or.inl rfl, by omega, by omega, by omega,
        hmemW right (by omega) (by omega)⟩

theorem lookup_key_in_catalog_witness :
    ((mkEntry 4 3 4 4).kernel_small, (mkEntry 4 3 4 4).kernel_large)
      ∈ kernels 4 :=
  (lookup_key_in_catalog 4 3 4 4 (by omega) (by omega)).2.2.2.2

/-- Claim C9 (counterexample): `get_ctrl` performs no validation — applied
to the out-of-range pair (0, 9) it does not fail with InvalidOperand, and
returns 9, the very control id of the valid pair (1, 1). -/
theorem encode_no_validation_counterexample :
    get_ctrl 3 0 9 = get_ctrl 3 1 1 := by decide

/-- Claim C9 (amended): `get_ctrl` checks nothing and never fails: it
returns `(left << SHIFT) | right` for every argument pair; on the valid
domain [1, 2·Width−1]² this value is the arithmetic encoding
`left * 2^SHIFT + right`. -/
theorem encode_total_on_domain (WIDTH SHIFT left right : Nat)
    (hcfg : validConfig WIDTH SHIFT)
    (hl : 1 ≤ left ∧ left ≤ WIDTH * 2 - 1)
    (hr : 1 ≤ right ∧ right ≤ WIDTH * 2 - 1) :
    get_ctrl SHIFT left right = left * 2 ^ SHIFT + right := by
  have hpow := validConfig_two_pow hcfg
  exact get_ctrl_eq left (by omega)

theorem encode_total_on_domain_witness :
    get_ctrl 3 2 5 = 2 * 2 ^ 3 + 5 :=
  encode_total_on_domain 4 3 2 5 (Or.inl ⟨rfl, rfl⟩) (by omega) (by omega)

/-- Claim C10: whenever left = right the branch condition `left <= right`
holds, so the left operand is bound to the small role and the right operand
to the large role: ties deterministically bind the right operand as the
large operand. -/
theorem tie_binds_left_small (WIDTH SHIFT n : Nat) :
    (mkEntry WIDTH SHIFT n n).small = Side.left ∧
      (mkEntry WIDTH SHIFT n n).large = Side.right := by
  simp [mkEntry]

end SimdSetOps
